import Mathlib

/-!
Shallow embedding of the Project Synapse backend
(`backend/app/services/pdf_parser.py`, `backend/app/services/graph_builder.py`,
`backend/app/services/chat_engine.py`) together with proofs about the
chunking, extraction, deduplication, graph-writing and retrieval logic.

Python strings are modelled as `List Char`; Python `dict`s carrying LLM
output records are modelled as structures with `Option` fields (a missing
key is `none`); the Neo4j store is modelled as an explicit state value and
each Cypher query as a state transformer mirroring MERGE/MATCH semantics.
-/

namespace Synapse

/-! ## Python string primitives -/

/-- Python `str.isspace` characters relevant to `str.strip()` (ASCII whitespace). -/
def pyIsSpace (c : Char) : Bool :=
  c == ' ' || c == '\t' || c == '\n' || c == '\r' || c == '\x0b' || c == '\x0c'

/-- Python `s.strip()`: drop leading and trailing whitespace. -/
def pyStrip (s : List Char) : List Char :=
  ((s.dropWhile pyIsSpace).reverse.dropWhile pyIsSpace).reverse

/-- Python `s.lower()` (ASCII case folding suffices for this code base). -/
def pyLower (s : List Char) : List Char := s.map Char.toLower

/-- Python `s.upper()`. -/
def pyUpper (s : List Char) : List Char := s.map Char.toUpper

/-- `pat` occurs in `s` starting at index `i`. -/
def occursAt (s pat : List Char) (i : Nat) : Bool :=
  (s.drop i).take pat.length == pat

/-- Helper for `pyRfind`: search indices `n-1, n-2, …, 0` for the last occurrence. -/
def pyRfindAux (s pat : List Char) : Nat → Option Nat
  | 0 => none
  | i + 1 => if occursAt s pat i then some i else pyRfindAux s pat i

/-- Python `s.rfind(pat)` for non-empty `pat`: index of the last occurrence,
`none` when absent (Python returns `-1`). -/
def pyRfind (s pat : List Char) : Option Nat :=
  pyRfindAux s pat s.length

/-- Python `"sep".join(parts)`. -/
def pyJoin (sep : List Char) : List (List Char) → List Char
  | [] => []
  | [x] => x
  | x :: y :: xs => x ++ sep ++ pyJoin sep (y :: xs)

/-- Case-insensitive-ready substring test: Cypher `hay CONTAINS needle`. -/
def containsSub (hay needle : List Char) : Bool :=
  (List.range (hay.length + 1)).any (fun i => occursAt hay needle i)

/-! ## Chunker (`pdf_parser.extract_text_from_pdf`, lines 36-60)

The PDF text extraction itself (pypdf, lines 23-30) is an external
collaborator; the embedding starts from the extracted `full_text`. -/

/-- The sentence boundaries searched, in the source's priority order
(`for boundary in [". ", "? ", "! ", "\n"]`). -/
def dotSpace : List Char := ['.', ' ']

def questionSpace : List Char := ['?', ' ']

def bangSpace : List Char := ['!', ' ']

def newlineBoundary : List Char := ['\n']

def boundaries : List (List Char) := [dotSpace, questionSpace, bangSpace, newlineBoundary]

/-- The `for boundary in [...]: last = window.rfind(boundary); if last != -1: end = start + last + len(boundary); break`
loop: the first boundary kind that occurs in the window wins, and the window
ends just after its last occurrence. Returns the offset of the new end
relative to `start`. -/
def firstBoundarySnap (window : List Char) : List (List Char) → Option Nat
  | [] => none
  | pat :: rest =>
    match pyRfind window pat with
    | some i => some (i + pat.length)
    | none => firstBoundarySnap window rest

/-- The window `full_text[start:end]` with `end = start + chunk_size` (the
slice Python clamps to the text length). -/
def chunkWindow (text : List Char) (chunk_size start : Nat) : List Char :=
  (text.drop start).take chunk_size

/-- Lines 39-48: `end = start + chunk_size`, then boundary snapping only when
`end < len(full_text)`. -/
def chunkEnd (text : List Char) (chunk_size start : Nat) : Nat :=
  if start + chunk_size < text.length then
    match firstBoundarySnap (chunkWindow text chunk_size start) boundaries with
    | some j => start + j
    | none => start + chunk_size
  else start + chunk_size

/-- Lines 54-58: `next_start = end - overlap; if next_start <= start: next_start = start + 1`. -/
def nextStart (text : List Char) (chunk_size overlap start : Nat) : Nat :=
  if chunkEnd text chunk_size start - overlap ≤ start then start + 1
  else chunkEnd text chunk_size start - overlap

/-- The `while start < len(full_text)` loop of lines 38-58, with explicit fuel.
Because `nextStart` strictly increases the start offset (the source's
anti-infinite-loop guard), fuel `text.length - start` always suffices;
`chunkLoop_fuel_stable` below proves the result independent of any
sufficient fuel. -/
def chunkLoopF (text : List Char) (chunk_size overlap : Nat) : Nat → Nat → List (List Char)
  | _, 0 => []
  | start, fuel + 1 =>
    if start < text.length then
      let e := chunkEnd text chunk_size start
      let chunk := pyStrip ((text.drop start).take (e - start))
      let rest := chunkLoopF text chunk_size overlap (nextStart text chunk_size overlap start) fuel
      if chunk.isEmpty then rest else chunk :: rest
    else []

/-- Lines 32-60 of `extract_text_from_pdf`: the chunking of the extracted text. -/
def extract_text_from_pdf (full_text : List Char) (chunk_size overlap : Nat) : List (List Char) :=
  if (pyStrip full_text).isEmpty then [] else chunkLoopF full_text chunk_size overlap 0 full_text.length

/-! ## Extraction client (`graph_builder._parse_llm_json`, `_extract_with_timeout`)

The language model is an external collaborator: the outcome of one model
round-trip is a value of `ModelOutcome` (a normal reply with some textual
content, an `asyncio.TimeoutError`, or any other raised exception).
`json.loads` is likewise external, abstracted as a `loads` parameter that
either produces a Python value or fails (raises `JSONDecodeError`). -/

/-- An extracted entity record, a JSON object with optional string fields
(`entity.get(key, default)` reads an absent key as the default). -/
structure PyEntity where
  name : Option (List Char)
  etype : Option (List Char)
  descr : Option (List Char)
deriving DecidableEq, Repr

/-- An extracted relationship record. -/
structure PyRel where
  source : Option (List Char)
  target : Option (List Char)
  rtype : Option (List Char)
  descr : Option (List Char)
deriving DecidableEq, Repr

/-- A value produced by `json.loads`: either a JSON object whose
`"entities"`/`"relationships"` keys may be present or absent, or any
non-object JSON value (list, string, number, …) on which `.get` raises. -/
inductive PyJson where
  | obj (entities : Option (List PyEntity)) (relationships : Option (List PyRel))
  | nonobj
deriving DecidableEq, Repr

/-- The empty result `{"entities": [], "relationships": []}`. -/
def emptyParsed : PyJson := .obj (some []) (some [])

/-- `parsed.get("entities", [])` on a dict. (The pipeline only applies this to
values returned by `extract_with_timeout`, which are always objects.) -/
def getEntities : PyJson → List PyEntity
  | .obj e _ => e.getD []
  | .nonobj => []

/-- `parsed.get("relationships", [])` on a dict. -/
def getRels : PyJson → List PyRel
  | .obj _ r => r.getD []
  | .nonobj => []

/-- The optional `json` tag directly after a fence: `(?:json)?`. -/
def stripJsonTag : List Char → List Char
  | 'j' :: 's' :: 'o' :: 'n' :: r => r
  | r => r

/-- `re.sub(r"```(?:json)?\s*", "", text)`: scan left to right, and at every
occurrence of three backticks consume the optional `json` tag and the
following whitespace run; all other characters pass through. Fuel-indexed
to keep the recursion structural; `text.length` fuel always suffices. -/
def fenceSubF : Nat → List Char → List Char
  | 0, s => s
  | _ + 1, [] => []
  | fuel + 1, '`' :: '`' :: '`' :: rest => fenceSubF fuel ((stripJsonTag rest).dropWhile pyIsSpace)
  | fuel + 1, c :: rest => c :: fenceSubF fuel rest

def fenceSub (s : List Char) : List Char := fenceSubF s.length s

/-- `s.rstrip("`")`. -/
def rstripBackticks (s : List Char) : List Char :=
  (s.reverse.dropWhile (· == '`')).reverse

/-- Lines 86-87: the cleaned text handed to `json.loads`. -/
def cleanLLMOutput (text : List Char) : List Char :=
  rstripBackticks (pyStrip (fenceSub text))

/-- `_parse_llm_json` (lines 84-92), parameterised by the external `json.loads`. -/
def parse_llm_json (loads : List Char → Option PyJson) (text : List Char) : PyJson :=
  match loads (cleanLLMOutput text) with
  | some v => v
  | none => emptyParsed

/-- The outcome of one model invocation (`chain.ainvoke` under `asyncio.wait_for`). -/
inductive ModelOutcome where
  | timeout
  | failed
  | ok (content : List Char)
deriving DecidableEq, Repr

/-- `_extract_with_timeout` (lines 95-116): on a reply, parse it; on timeout or
any exception, return the empty result. A non-object JSON value makes the
logging line `parsed.get("entities", [])` raise `AttributeError`, which the
blanket `except Exception` turns into the empty result as well. -/
def extract_with_timeout (loads : List Char → Option PyJson) (o : ModelOutcome) : PyJson :=
  match o with
  | .timeout => emptyParsed
  | .failed => emptyParsed
  | .ok content =>
    match parse_llm_json loads content with
    | .obj e r => .obj e r
    | .nonobj => emptyParsed

/-! ## Concurrency controller aggregation (`build_knowledge_graph`, lines 135-161)

`asyncio.gather(*tasks)` resolves every per-chunk task and yields their
results in task order; the model's behaviour on the task for chunk `i` is
an oracle value `outcomes i`. -/

/-- The resolved `results` list of `await asyncio.gather(*tasks)`. -/
def gatherResults (loads : List Char → Option PyJson) (outcomes : Nat → ModelOutcome)
    (chunks : List (List Char)) : List PyJson :=
  (List.range chunks.length).map (fun i => extract_with_timeout loads (outcomes i))

/-- Lines 157-159: `all_entities.extend(...)`, `all_relationships.extend(...)`. -/
def aggregateResults (results : List PyJson) : List PyEntity × List PyRel :=
  results.foldl (fun acc p => (acc.1 ++ getEntities p, acc.2 ++ getRels p)) ([], [])

/-! ## Deduplicator (`build_knowledge_graph`, lines 163-169) -/

/-- `entity.get("name", "").strip()`. -/
def entName (e : PyEntity) : List Char := pyStrip (e.name.getD [])

/-- The dict key under which an entity is stored, `none` when the entity is
discarded (`if name:` fails on the empty string). -/
def normKey (e : PyEntity) : Option (List Char) :=
  if (entName e).isEmpty then none else some (pyLower (entName e))

/-- Python dict assignment `d[k] = v`: replace in place when the key exists
(insertion order is kept), else append. -/
def dictInsert (m : List (List Char × PyEntity)) (k : List Char) (v : PyEntity) :
    List (List Char × PyEntity) :=
  match m with
  | [] => [(k, v)]
  | p :: rest => if p.1 = k then (k, v) :: rest else p :: dictInsert rest k v

/-- Association-list lookup mirroring Python `d[k]` / `k in d`. -/
def dictLookup (m : List (List Char × PyEntity)) (k : List Char) : Option PyEntity :=
  match m with
  | [] => none
  | p :: rest => if p.1 = k then some p.2 else dictLookup rest k

/-- `a` when present, else `b` (first-some). -/
def optOr {α : Type} : Option α → Option α → Option α
  | some a, _ => some a
  | none, b => b

/-- One iteration of the dedup loop: `if name: seen_entities[name.lower()] = entity`. -/
def dedupStep (m : List (List Char × PyEntity)) (e : PyEntity) : List (List Char × PyEntity) :=
  match normKey e with
  | none => m
  | some k => dictInsert m k e

/-- The `seen_entities` dict after the loop of lines 164-168. -/
def seenEntities (es : List PyEntity) : List (List Char × PyEntity) :=
  es.foldl dedupStep []

/-- Line 169: `unique_entities = list(seen_entities.values())`. -/
def uniqueEntities (es : List PyEntity) : List PyEntity :=
  (seenEntities es).map Prod.snd

/-! ## Graph writer (`build_knowledge_graph`, lines 172-245)

The Neo4j store is modelled as an explicit state: the set of `Entity` node
names present and the set of materialized edges. A Cypher query that
`MATCH`es nothing succeeds with zero rows — it raises no exception and
writes nothing. Whether `apoc.merge.relationship` is available is a store
capability flag: when it is absent the primary query raises and the code
falls back to the static `RELATED_TO` query; when the store is reachable
both the node `MERGE` and whichever relationship query runs succeed. -/

structure Store where
  apoc : Bool
  nodes : List (List Char)
  edges : List (List Char × List Char × List Char)
deriving DecidableEq, Repr

/-- The node upsert query of lines 175-187: `MERGE (n:Entity {name: $name}) SET …`
matches-or-creates the node named `entity.get("name", "Unknown")`. -/
def execNodeMerge (s : Store) (name : List Char) : Store :=
  if name ∈ s.nodes then s else { s with nodes := s.nodes ++ [name] }

/-- The node name parameter of line 183. -/
def nodeName (e : PyEntity) : List Char := e.name.getD "Unknown".toList

/-- Lines 173-191: write every unique entity, counting each successful query. -/
def nodeLoop : Store → Nat → List PyEntity → Store × Nat
  | s, cnt, [] => (s, cnt)
  | s, cnt, e :: rest => nodeLoop (execNodeMerge s (nodeName e)) (cnt + 1) rest

/-- `rel.get("source", "").strip()`. -/
def relSource (r : PyRel) : List Char := pyStrip (r.source.getD [])

/-- `rel.get("target", "").strip()`. -/
def relTarget (r : PyRel) : List Char := pyStrip (r.target.getD [])

/-- `rel.get("type", "RELATED_TO").replace(" ", "_").upper()`. -/
def relType (r : PyRel) : List Char :=
  pyUpper ((r.rtype.getD "RELATED_TO".toList).map (fun c => if c = ' ' then '_' else c))

/-- Edge upsert by (source, kind, target): match-or-create. -/
def upsertEdge (s : Store) (a kind b : List Char) : Store :=
  if (a, kind, b) ∈ s.edges then s else { s with edges := s.edges ++ [(a, kind, b)] }

/-- The relationship write of lines 206-236: the APOC query when available,
else (after the raised capability error) the `RELATED_TO` fallback query.
Both `MATCH` the two endpoint nodes by name: when either is missing the
query yields zero rows and materializes nothing, yet completes without
error. -/
def execRelWrite (s : Store) (src tgt rt : List Char) : Store :=
  if src ∈ s.nodes ∧ tgt ∈ s.nodes then
    if s.apoc then upsertEdge s src rt tgt else upsertEdge s src "RELATED_TO".toList tgt
  else s

/-- Lines 195-240: the relationship write loop. A relationship whose trimmed
source or target is empty is skipped (`continue`); otherwise the write
executes and `rels_created` is incremented. -/
def relLoop : Store → Nat → List PyRel → Store × Nat
  | s, cnt, [] => (s, cnt)
  | s, cnt, r :: rest =>
    if (relSource r).isEmpty || (relTarget r).isEmpty then relLoop s cnt rest
    else relLoop (execRelWrite s (relSource r) (relTarget r) (relType r)) (cnt + 1) rest

/-- The write phase of `build_knowledge_graph` (lines 172-245): all node writes,
then all relationship writes, returning the final store and the
`(nodes_created, relationships_created)` counters. -/
def graphWritePhase (s : Store) (ents : List PyEntity) (rels : List PyRel) :
    Store × Nat × Nat :=
  let p := nodeLoop s 0 ents
  let q := relLoop p.1 0 rels
  (q.1, p.2, q.2)

/-- `build_knowledge_graph` end to end (lines 119-245): gather the per-chunk
extraction results, concatenate them, deduplicate the entities, run the
write phase, and return the store together with the result dict
`{"nodes_created": …, "relationships_created": …}`. -/
def build_knowledge_graph (loads : List Char → Option PyJson) (outcomes : Nat → ModelOutcome)
    (chunks : List (List Char)) (s : Store) : Store × Nat × Nat :=
  let agg := aggregateResults (gatherResults loads outcomes chunks)
  graphWritePhase s (uniqueEntities agg.1) agg.2

/-! ## Subgraph retriever (`chat_engine._retrieve_subgraph`, lines 34-101) -/

/-- A persisted `Entity` node as read back by the retrieval queries
(`description` is always set by the writer, possibly to the empty string,
which Python treats as falsy). -/
structure GNode where
  name : List Char
  gtype : List Char
  descr : List Char
deriving DecidableEq, Repr

/-- A persisted relationship: source name, target name, relationship kind. -/
structure GEdge where
  src : List Char
  tgt : List Char
  rel : List Char
deriving DecidableEq, Repr

structure Graph where
  nodes : List GNode
  edges : List GEdge
deriving DecidableEq, Repr

/-- The `WHERE toLower(n.name) CONTAINS toLower($query) OR toLower(n.description) CONTAINS toLower($query)` filter. -/
def matchesQuery (q : List Char) (n : GNode) : Bool :=
  containsSub (pyLower n.name) (pyLower q) || containsSub (pyLower n.descr) (pyLower q)

def findNode (g : Graph) (name : List Char) : Option GNode :=
  g.nodes.find? (fun n => n.name = name)

/-- `OPTIONAL MATCH (n)-[r]-(m:Entity)` with `collect(DISTINCT {...})`:
the undirected neighborhood of `n`, one `(relationship kind, neighbor)`
pair per incident edge, de-duplicated. -/
def connections (g : Graph) (n : GNode) : List (List Char × GNode) :=
  (g.edges.filterMap (fun e =>
    if e.src = n.name then (findNode g e.tgt).map (fun m => (e.rel, m))
    else if e.tgt = n.name then (findNode g e.src).map (fun m => (e.rel, m))
    else none)).dedup

/-- Line 94: `  → {relationship} → {related_entity} ({related_type})`. -/
def connLine (rel : List Char) (m : GNode) : List Char :=
  "  → ".toList ++ rel ++ " → ".toList ++ m.name ++ " (".toList ++ m.gtype ++ [')']

/-- Line 84: `f"Entity: {record['entity']} (Type: {record['type']})"`. -/
def renderBase (n : GNode) : List Char :=
  "Entity: ".toList ++ n.name ++ " (Type: ".toList ++ n.gtype ++ [')']

/-- Lines 85-86: the description line is appended only when the description is
truthy (non-empty). -/
def renderWithDescr (n : GNode) : List Char :=
  if n.descr.isEmpty then renderBase n
  else renderBase n ++ "\n  Description: ".toList ++ n.descr

/-- Lines 88-95: one line per connection whose related entity is truthy. -/
def connLinesOf (g : Graph) (n : GNode) : List (List Char) :=
  ((connections g n).filter (fun p => !p.2.name.isEmpty)).map (fun p => connLine p.1 p.2)

/-- Lines 84-99: render one record into its `entity_info` block. -/
def renderEntity (g : Graph) (n : GNode) : List Char :=
  if (connLinesOf g n).isEmpty then renderWithDescr n
  else renderWithDescr n ++ "\n  Relationships:\n".toList ++ pyJoin ['\n'] (connLinesOf g n)

/-- Line 101's sentinel. -/
def noInfoSentinel : List Char :=
  "No relevant information found in the knowledge graph.".toList

/-- Lines 40-79: the record list — the primary substring search limited to 10
entities or, when it yields no records, the fallback query's sample of up
to 20 arbitrary entities. -/
def retrieveResults (g : Graph) (q : List Char) : List GNode :=
  if ((g.nodes.filter (matchesQuery q)).take 10).isEmpty then g.nodes.take 20
  else (g.nodes.filter (matchesQuery q)).take 10

/-- `_retrieve_subgraph` (lines 34-101): each record renders to one block and
the blocks are joined by blank lines, with the sentinel only for an empty
record list. -/
def retrieve_subgraph (g : Graph) (q : List Char) : List Char :=
  if ((retrieveResults g q).map (renderEntity g)).isEmpty then noInfoSentinel
  else pyJoin "\n\n".toList ((retrieveResults g q).map (renderEntity g))

/-! ## Concurrency model of the admission gate (lines 138-155)

`asyncio.Semaphore(5)` with `async with semaphore:` around each
`_extract_with_timeout` call: a task acquires the gate before its
extraction call starts and releases it when the call completes — the
release happens on every outcome (success, parse failure, timeout), since
`_extract_with_timeout` converts all failures into a returned value. The
interleaving of the cooperative scheduler is modelled as a step relation
over the vector of task states. -/

inductive TaskState where
  | pending
  | running
  | finished
deriving DecidableEq, Repr

/-- The number of extraction calls currently outstanding. -/
def runningCount (ts : List TaskState) : Nat :=
  ts.countP (fun t => t = TaskState.running)

/-- One scheduler step: a pending task may acquire the gate only while fewer
than `k` tasks hold it; a running task's extraction call may complete
(with any outcome), releasing the gate. -/
inductive SemStep (k : Nat) : List TaskState → List TaskState → Prop
  | acquire (ts : List TaskState) (i : Nat) (hp : ts[i]? = some .pending)
      (hk : runningCount ts < k) : SemStep k ts (ts.set i .running)
  | release (ts : List TaskState) (i : Nat) (hr : ts[i]? = some .running) :
      SemStep k ts (ts.set i .finished)

/-- States reachable by the controller run over `n` chunk tasks. -/
def SemReachable (k n : Nat) (ts : List TaskState) : Prop :=
  Relation.ReflTransGen (SemStep k) (List.replicate n .pending) ts

/-! ## Concrete instances used in witnesses and counterexamples -/

/-- The two records of the spec's deduplication example. -/
def exampleEntity1 : PyEntity :=
  ⟨some "OpenAI".toList, some "COMPANY".toList, some "first".toList⟩

def exampleEntity2 : PyEntity :=
  ⟨some " openai ".toList, some "ORGANIZATION".toList, some "second".toList⟩

/-- A relationship between two names for which no entity node exists. -/
def exampleDanglingRel : PyRel := ⟨some "A".toList, some "B".toList, none, none⟩

/-- A relationship whose source is whitespace-only (empty after trimming). -/
def exampleEmptyNameRel : PyRel := ⟨some " ".toList, some "B".toList, none, none⟩

/-- A `json.loads` stand-in whose every parse yields no entities and one
relationship whose endpoints were never extracted as entities. -/
def exampleLoads : List Char → Option PyJson :=
  fun _ => some (.obj (some []) (some [exampleDanglingRel]))

/-- A `json.loads` stand-in that always fails to parse. -/
def failingLoads : List Char → Option PyJson := fun _ => none

/-- Every model call returns normally with empty content. -/
def exampleOutcomes : Nat → ModelOutcome := fun _ => .ok []

/-- An empty store with APOC available. -/
def emptyStore : Store := ⟨true, [], []⟩

/-- A one-node graph whose node does not mention the query `"zzz"`. -/
def exampleGraph : Graph :=
  ⟨[⟨"Alice".toList, "PERSON".toList, "".toList⟩],
   []⟩

/-! # Lemmas and claim theorems -/

/-! ## Chunker lemmas -/

theorem nextStart_gt (text : List Char) (cs ov start : Nat) :
    start < nextStart text cs ov start := by
  unfold nextStart
  split
  · omega
  · omega

theorem chunkLoopF_stable (text : List Char) (cs ov : Nat) :
    ∀ f₁ f₂ start : Nat, text.length - start ≤ f₁ → text.length - start ≤ f₂ →
      chunkLoopF text cs ov start f₁ = chunkLoopF text cs ov start f₂ := by
  intro f₁
  induction f₁ with
  | zero =>
    intro f₂ start h1 _
    cases f₂ with
    | zero => rfl
    | succ k =>
      simp only [chunkLoopF]
      rw [if_neg (by omega)]
  | succ g ih =>
    intro f₂ start h1 h2
    cases f₂ with
    | zero =>
      simp only [chunkLoopF]
      rw [if_neg (by omega)]
    | succ k =>
      simp only [chunkLoopF]
      by_cases hlt : start < text.length
      · rw [if_pos hlt, if_pos hlt]
        have hnext := nextStart_gt text cs ov start
        rw [ih k (nextStart text cs ov start) (by omega) (by omega)]
      · rw [if_neg hlt, if_neg hlt]

theorem occursAt_add_le {s pat : List Char} {i : Nat} (hp : pat ≠ [])
    (h : occursAt s pat i = true) : i + pat.length ≤ s.length := by
  unfold occursAt at h
  have heq : (s.drop i).take pat.length = pat := by
    exact eq_of_beq h
  have hlen := congrArg List.length heq
  simp only [List.length_take, List.length_drop] at hlen
  have hp' : 0 < pat.length := List.length_pos.mpr hp
  omega

theorem pyRfindAux_eq_some {s pat : List Char} :
    ∀ {n i : Nat}, pyRfindAux s pat n = some i →
      occursAt s pat i = true ∧ i < n ∧ ∀ j, i < j → j < n → occursAt s pat j = false := by
  intro n
  induction n with
  | zero => intro i h; simp [pyRfindAux] at h
  | succ m ih =>
    intro i h
    unfold pyRfindAux at h
    by_cases hm : occursAt s pat m = true
    · rw [if_pos hm] at h
      cases h
      exact ⟨hm, Nat.lt_succ_self m, fun j hj1 hj2 => by omega⟩
    · rw [if_neg hm] at h
      obtain ⟨h1, h2, h3⟩ := ih h
      refine ⟨h1, by omega, fun j hj1 hj2 => ?_⟩
      by_cases hjm : j = m
      · subst hjm; exact Bool.not_eq_true _ ▸ (by simpa using hm)
      · exact h3 j hj1 (by omega)

theorem pyRfindAux_eq_none {s pat : List Char} :
    ∀ {n : Nat}, pyRfindAux s pat n = none → ∀ j, j < n → occursAt s pat j = false := by
  intro n
  induction n with
  | zero => intro _ j hj; omega
  | succ m ih =>
    intro h j hj
    unfold pyRfindAux at h
    by_cases hm : occursAt s pat m = true
    · rw [if_pos hm] at h; cases h
    · rw [if_neg hm] at h
      by_cases hjm : j = m
      · subst hjm; simpa using hm
      · exact ih h j (by omega)

theorem pyRfind_eq_some {s pat : List Char} (hp : pat ≠ []) {i : Nat}
    (h : pyRfind s pat = some i) :
    occursAt s pat i = true ∧ ∀ j, i < j → occursAt s pat j = false := by
  obtain ⟨h1, _, h3⟩ := pyRfindAux_eq_some h
  refine ⟨h1, fun j hj => ?_⟩
  by_cases hjl : j < s.length
  · exact h3 j hj hjl
  · cases hO : occursAt s pat j with
    | false => rfl
    | true =>
      have := occursAt_add_le hp hO
      have hp' : 0 < pat.length := List.length_pos.mpr hp
      omega

theorem pyRfind_eq_none {s pat : List Char} (hp : pat ≠ [])
    (h : pyRfind s pat = none) : ∀ j, occursAt s pat j = false := by
  intro j
  by_cases hjl : j < s.length
  · exact pyRfindAux_eq_none h j hjl
  · cases hO : occursAt s pat j with
    | false => rfl
    | true =>
      have := occursAt_add_le hp hO
      have hp' : 0 < pat.length := List.length_pos.mpr hp
      omega

theorem firstBoundarySnap_cons_some {w pat : List Char} {pats : List (List Char)} {i : Nat}
    (hi : pyRfind w pat = some i) :
    firstBoundarySnap w (pat :: pats) = some (i + pat.length) := by
  unfold firstBoundarySnap
  rw [hi]

theorem firstBoundarySnap_cons_none {w pat : List Char} {pats : List (List Char)}
    (hn : pyRfind w pat = none) :
    firstBoundarySnap w (pat :: pats) = firstBoundarySnap w pats := by
  conv_lhs => unfold firstBoundarySnap
  rw [hn]

theorem firstBoundarySnap_le (w : List Char) :
    ∀ pats : List (List Char), (∀ p ∈ pats, p ≠ []) →
      ∀ j, firstBoundarySnap w pats = some j → j ≤ w.length := by
  intro pats
  induction pats with
  | nil => intro _ j h; simp [firstBoundarySnap] at h
  | cons pat rest ih =>
    intro hne j h
    cases hr : pyRfind w pat with
    | some i =>
      rw [firstBoundarySnap_cons_some hr] at h
      cases h
      have hpne : pat ≠ [] := hne pat (by simp)
      obtain ⟨h1, _⟩ := pyRfind_eq_some hpne hr
      exact occursAt_add_le hpne h1
    | none =>
      rw [firstBoundarySnap_cons_none hr] at h
      exact ih (fun p hpmem => hne p (by simp [hpmem])) j h

theorem chunkEnd_le (text : List Char) (cs start : Nat) :
    chunkEnd text cs start ≤ start + cs := by
  unfold chunkEnd
  split
  · cases hs : firstBoundarySnap (chunkWindow text cs start) boundaries with
    | some j =>
      have hj : j ≤ (chunkWindow text cs start).length := by
        refine firstBoundarySnap_le _ boundaries (by decide) j hs
      have hw : (chunkWindow text cs start).length ≤ cs := by
        simp [chunkWindow]
      simp only [hs]
      omega
    | none => simp [hs]
  · exact Nat.le_refl _

theorem pyStrip_length_le (s : List Char) : (pyStrip s).length ≤ s.length := by
  unfold pyStrip
  calc (((s.dropWhile pyIsSpace).reverse.dropWhile pyIsSpace).reverse).length
      = ((s.dropWhile pyIsSpace).reverse.dropWhile pyIsSpace).length := by
        rw [List.length_reverse]
    _ ≤ (s.dropWhile pyIsSpace).reverse.length := (List.dropWhile_sublist pyIsSpace).length_le
    _ = (s.dropWhile pyIsSpace).length := by rw [List.length_reverse]
    _ ≤ s.length := (List.dropWhile_sublist pyIsSpace).length_le

theorem chunkLoopF_length_le (text : List Char) (cs ov : Nat) :
    ∀ fuel start : Nat, ∀ c ∈ chunkLoopF text cs ov start fuel, c.length ≤ cs := by
  intro fuel
  induction fuel with
  | zero => intro start c hc; simp [chunkLoopF] at hc
  | succ g ih =>
    intro start c hc
    simp only [chunkLoopF] at hc
    by_cases hlt : start < text.length
    · rw [if_pos hlt] at hc
      by_cases he : (pyStrip ((text.drop start).take (chunkEnd text cs start - start))).isEmpty
      · rw [if_pos he] at hc
        exact ih _ c hc
      · rw [if_neg he] at hc
        obtain heq | hmem := List.mem_cons.mp hc
        · subst heq
          calc (pyStrip ((text.drop start).take (chunkEnd text cs start - start))).length
              ≤ ((text.drop start).take (chunkEnd text cs start - start)).length :=
                pyStrip_length_le _
            _ ≤ chunkEnd text cs start - start := by simp
            _ ≤ cs := by have := chunkEnd_le text cs start; omega
        · exact ih _ c hmem
    · rw [if_neg hlt] at hc
      simp at hc

/-! ## Chunker claims -/

/-- C2: for every input text, target chunk size, and overlap value — including
`overlap ≥ chunk_size` — the start offset strictly increases on every loop
iteration: the next start is `end - overlap`, forced to `start + 1` whenever
that would be ≤ the current start. Consequently the loop terminates:
`text.length - start` fuel suffices, and any larger fuel gives the same
chunk list. -/
theorem chunker_start_strictly_increases (text : List Char) (cs ov start : Nat) :
    start < nextStart text cs ov start ∧
    nextStart text cs ov start =
      (if chunkEnd text cs start - ov ≤ start then start + 1
       else chunkEnd text cs start - ov) ∧
    (∀ fuel, text.length - start ≤ fuel →
      chunkLoopF text cs ov start fuel = chunkLoopF text cs ov start (text.length - start)) :=
  ⟨nextStart_gt text cs ov start, rfl,
    fun fuel hf => chunkLoopF_stable text cs ov fuel (text.length - start) start hf (Nat.le_refl _)⟩

theorem chunker_start_strictly_increases_witness :
    chunkLoopF "ab. cd".toList 5 2 0 17 = chunkLoopF "ab. cd".toList 5 2 0 ("ab. cd".toList.length - 0) :=
  (chunker_start_strictly_increases "ab. cd".toList 5 2 0).2.2 17 (by decide)

/-- C7: for a full window (`start + chunk_size < text.length`), the chunker
searches backward in the window for the last occurrence of one of `". "`,
`"? "`, `"! "`, `"\n"` in that priority order — the first boundary kind
that occurs in the window wins — and ends the window just after that
boundary; with no boundary the end stays `start + chunk_size`. When
`end - overlap` exceeds the current start, the next window starts at
`end - overlap`. -/
theorem chunker_boundary_snapping (text : List Char) (cs ov start : Nat)
    (h : start + cs < text.length) :
    (∀ i, pyRfind (chunkWindow text cs start) dotSpace = some i →
      chunkEnd text cs start = start + i + 2 ∧
      occursAt (chunkWindow text cs start) dotSpace i = true ∧
      ∀ j, i < j → occursAt (chunkWindow text cs start) dotSpace j = false) ∧
    (pyRfind (chunkWindow text cs start) dotSpace = none →
      ∀ i, pyRfind (chunkWindow text cs start) questionSpace = some i →
      chunkEnd text cs start = start + i + 2 ∧
      occursAt (chunkWindow text cs start) questionSpace i = true ∧
      ∀ j, i < j → occursAt (chunkWindow text cs start) questionSpace j = false) ∧
    (pyRfind (chunkWindow text cs start) dotSpace = none →
      pyRfind (chunkWindow text cs start) questionSpace = none →
      ∀ i, pyRfind (chunkWindow text cs start) bangSpace = some i →
      chunkEnd text cs start = start + i + 2 ∧
      occursAt (chunkWindow text cs start) bangSpace i = true ∧
      ∀ j, i < j → occursAt (chunkWindow text cs start) bangSpace j = false) ∧
    (pyRfind (chunkWindow text cs start) dotSpace = none →
      pyRfind (chunkWindow text cs start) questionSpace = none →
      pyRfind (chunkWindow text cs start) bangSpace = none →
      ∀ i, pyRfind (chunkWindow text cs start) newlineBoundary = some i →
      chunkEnd text cs start = start + i + 1 ∧
      occursAt (chunkWindow text cs start) newlineBoundary i = true ∧
      ∀ j, i < j → occursAt (chunkWindow text cs start) newlineBoundary j = false) ∧
    (pyRfind (chunkWindow text cs start) dotSpace = none →
      pyRfind (chunkWindow text cs start) questionSpace = none →
      pyRfind (chunkWindow text cs start) bangSpace = none →
      pyRfind (chunkWindow text cs start) newlineBoundary = none →
      chunkEnd text cs start = start + cs) ∧
    (start < chunkEnd text cs start - ov →
      nextStart text cs ov start = chunkEnd text cs start - ov) := by
  have hb4 : (boundaries : List (List Char)) =
      dotSpace :: questionSpace :: bangSpace :: newlineBoundary :: [] := rfl
  refine ⟨?_, ?_, ?_, ?_, ?_, ?_⟩
  · intro i hi
    obtain ⟨h1, h2⟩ := pyRfind_eq_some (by simp [dotSpace]) hi
    refine ⟨?_, h1, h2⟩
    unfold chunkEnd
    rw [if_pos h, hb4, firstBoundarySnap_cons_some hi]
    show start + (i + dotSpace.length) = start + i + 2
    simp [dotSpace]
    omega
  · intro hd i hi
    obtain ⟨h1, h2⟩ := pyRfind_eq_some (by simp [questionSpace]) hi
    refine ⟨?_, h1, h2⟩
    unfold chunkEnd
    rw [if_pos h, hb4, firstBoundarySnap_cons_none hd, firstBoundarySnap_cons_some hi]
    show start + (i + questionSpace.length) = start + i + 2
    simp [questionSpace]
    omega
  · intro hd hq i hi
    obtain ⟨h1, h2⟩ := pyRfind_eq_some (by simp [bangSpace]) hi
    refine ⟨?_, h1, h2⟩
    unfold chunkEnd
    rw [if_pos h, hb4, firstBoundarySnap_cons_none hd, firstBoundarySnap_cons_none hq,
      firstBoundarySnap_cons_some hi]
    show start + (i + bangSpace.length) = start + i + 2
    simp [bangSpace]
    omega
  · intro hd hq hb i hi
    obtain ⟨h1, h2⟩ := pyRfind_eq_some (by simp [newlineBoundary]) hi
    refine ⟨?_, h1, h2⟩
    unfold chunkEnd
    rw [if_pos h, hb4, firstBoundarySnap_cons_none hd, firstBoundarySnap_cons_none hq,
      firstBoundarySnap_cons_none hb, firstBoundarySnap_cons_some hi]
    show start + (i + newlineBoundary.length) = start + i + 1
    simp only [newlineBoundary, List.length_singleton]
    omega
  · intro hd hq hb hn
    unfold chunkEnd
    rw [if_pos h, hb4, firstBoundarySnap_cons_none hd, firstBoundarySnap_cons_none hq,
      firstBoundarySnap_cons_none hb, firstBoundarySnap_cons_none hn]
    rfl
  · intro hlt
    unfold nextStart
    rw [if_neg (by omega)]

theorem chunker_boundary_snapping_witness :
    chunkEnd "ab. cd. ef".toList 8 0 = 0 + 6 + 2 :=
  ((chunker_boundary_snapping "ab. cd. ef".toList 8 0 0 (by decide)).1 6 (by decide)).1

/-- C10: every chunk produced by the chunking loop has length at most
`chunk_size`: boundary snapping can only shorten a window and trimming only
removes characters. -/
theorem chunk_length_le_chunk_size (full_text : List Char) (cs ov : Nat) (_hcs : 0 < cs)
    (c : List Char) (hc : c ∈ extract_text_from_pdf full_text cs ov) : c.length ≤ cs := by
  unfold extract_text_from_pdf at hc
  split at hc
  · simp at hc
  · exact chunkLoopF_length_le full_text cs ov full_text.length 0 c hc

theorem chunk_length_le_chunk_size_witness : ("ab.".toList).length ≤ 5 :=
  chunk_length_le_chunk_size "ab. cd".toList 5 2 (by decide) "ab.".toList (by decide)

/-! ## Deduplicator lemmas -/

theorem optOr_none_right {α : Type} (a : Option α) : optOr a none = a := by
  cases a <;> rfl

theorem getLast?_cons_optOr {α : Type} (a : α) (l : List α) :
    (a :: l).getLast? = optOr l.getLast? (some a) := by
  induction l generalizing a with
  | nil => rfl
  | cons b t ih =>
    rw [List.getLast?_cons_cons, ih b]
    cases t.getLast? <;> rfl

theorem dictLookup_insert_self (m : List (List Char × PyEntity)) (k : List Char) (v : PyEntity) :
    dictLookup (dictInsert m k v) k = some v := by
  induction m with
  | nil => simp [dictInsert, dictLookup]
  | cons p rest ih =>
    unfold dictInsert
    by_cases hk : p.1 = k
    · rw [if_pos hk]
      simp [dictLookup]
    · rw [if_neg hk]
      unfold dictLookup
      rw [if_neg hk]
      exact ih

theorem dictLookup_insert_ne (m : List (List Char × PyEntity)) (k k' : List Char) (v : PyEntity)
    (h : k' ≠ k) : dictLookup (dictInsert m k v) k' = dictLookup m k' := by
  have hkk : ¬((k, v).1 = k') := fun hh => h hh.symm
  induction m with
  | nil =>
    unfold dictInsert dictLookup
    rw [if_neg hkk]
    rfl
  | cons p rest ih =>
    unfold dictInsert
    by_cases hk : p.1 = k
    · rw [if_pos hk]
      unfold dictLookup
      rw [if_neg hkk, if_neg (by rw [hk]; exact fun hh => h hh.symm)]
    · rw [if_neg hk]
      unfold dictLookup
      by_cases hk' : p.1 = k'
      · rw [if_pos hk', if_pos hk']
      · rw [if_neg hk', if_neg hk']
        exact ih

theorem dictInsert_keys (m : List (List Char × PyEntity)) (k : List Char) (v : PyEntity) :
    ((dictInsert m k v).map Prod.fst) =
      (if k ∈ m.map Prod.fst then m.map Prod.fst else m.map Prod.fst ++ [k]) := by
  induction m with
  | nil => simp [dictInsert]
  | cons p rest ih =>
    unfold dictInsert
    by_cases hk : p.1 = k
    · rw [if_pos hk]
      have hmem : k ∈ List.map Prod.fst (p :: rest) := by
        simp only [List.map_cons, List.mem_cons]
        exact Or.inl hk.symm
      rw [if_pos hmem]
      simp only [List.map_cons]
      rw [hk]
    · rw [if_neg hk]
      simp only [List.map_cons, ih]
      by_cases hmem : k ∈ rest.map Prod.fst
      · rw [if_pos hmem,
          if_pos (show k ∈ p.1 :: rest.map Prod.fst from List.mem_cons.mpr (Or.inr hmem))]
      · have hknot : ¬(k ∈ p.1 :: rest.map Prod.fst) := by
          simp only [List.mem_cons]
          push_neg
          exact ⟨fun hh => hk hh.symm, hmem⟩
        rw [if_neg hmem, if_neg hknot, List.cons_append]

theorem dictInsert_keys_nodup (m : List (List Char × PyEntity)) (k : List Char) (v : PyEntity)
    (h : (m.map Prod.fst).Nodup) : ((dictInsert m k v).map Prod.fst).Nodup := by
  rw [dictInsert_keys]
  by_cases hmem : k ∈ m.map Prod.fst
  · rw [if_pos hmem]; exact h
  · rw [if_neg hmem]
    exact List.Nodup.append h (List.nodup_singleton k)
      (by simp [List.disjoint_singleton, hmem])

theorem seenEntities_go (es : List PyEntity) :
    ∀ m : List (List Char × PyEntity), (m.map Prod.fst).Nodup →
      ((es.foldl dedupStep m).map Prod.fst).Nodup ∧
      ∀ k, dictLookup (es.foldl dedupStep m) k =
        optOr ((es.filter (fun e => normKey e = some k)).getLast?) (dictLookup m k) := by
  induction es with
  | nil =>
    intro m hm
    exact ⟨hm, fun _ => rfl⟩
  | cons e rest ih =>
    intro m hm
    rw [List.foldl_cons]
    cases hne : normKey e with
    | none =>
      have hstep : dedupStep m e = m := by unfold dedupStep; rw [hne]
      rw [hstep]
      obtain ⟨ih1, ih2⟩ := ih m hm
      refine ⟨ih1, fun k => ?_⟩
      rw [ih2 k]
      have hfil : (List.filter (fun e => decide (normKey e = some k)) (e :: rest)) =
          rest.filter (fun e => decide (normKey e = some k)) := by
        rw [List.filter_cons_of_neg]
        simp [hne]
      rw [hfil]
    | some k0 =>
      have hstep : dedupStep m e = dictInsert m k0 e := by unfold dedupStep; rw [hne]
      rw [hstep]
      obtain ⟨ih1, ih2⟩ := ih (dictInsert m k0 e) (dictInsert_keys_nodup m k0 e hm)
      refine ⟨ih1, fun k => ?_⟩
      rw [ih2 k]
      by_cases hk : k = k0
      · subst hk
        have hfil : (List.filter (fun e => decide (normKey e = some k)) (e :: rest)) =
            e :: rest.filter (fun e => decide (normKey e = some k)) := by
          rw [List.filter_cons_of_pos]
          simp [hne]
        rw [hfil, dictLookup_insert_self, getLast?_cons_optOr]
        cases (rest.filter (fun e => decide (normKey e = some k))).getLast? <;> rfl
      · have hfil : (List.filter (fun e => decide (normKey e = some k)) (e :: rest)) =
            rest.filter (fun e => decide (normKey e = some k)) := by
          rw [List.filter_cons_of_neg]
          simp [hne]
          exact fun hh => hk hh.symm
        rw [hfil, dictLookup_insert_ne m k0 k e hk]

/-! ## Deduplicator claim -/

/-- C3: deduplication keeps exactly one entity per normalization key (name
trimmed then lower-cased): the surviving keys are pairwise distinct, the
survivor under key `k` is exactly the last entity in iteration order whose
normalized name is `k` (the whole record, fields intact — last-write-wins),
entities whose name is empty or missing after trimming are discarded, and
the `"OpenAI"` / `" openai "` example merges to the single key `"openai"`
with the second record's fields. -/
theorem dedup_last_write_wins (es : List PyEntity) :
    ((seenEntities es).map Prod.fst).Nodup ∧
    (∀ k, dictLookup (seenEntities es) k =
      (es.filter (fun e => normKey e = some k)).getLast?) ∧
    (∀ e, normKey e = none → seenEntities (es ++ [e]) = seenEntities es) ∧
    seenEntities [exampleEntity1, exampleEntity2] =
      [("openai".toList, exampleEntity2)] := by
  obtain ⟨h1, h2⟩ := seenEntities_go es [] (by simp)
  refine ⟨h1, fun k => ?_, fun e hne => ?_, by decide⟩
  · rw [show seenEntities es = es.foldl dedupStep [] from rfl, h2 k]
    rw [show dictLookup [] k = none from rfl, optOr_none_right]
  · unfold seenEntities
    rw [List.foldl_append]
    simp only [List.foldl_cons, List.foldl_nil]
    unfold dedupStep
    rw [hne]

theorem dedup_last_write_wins_witness :
    dictLookup (seenEntities [exampleEntity1, exampleEntity2]) "openai".toList =
      some exampleEntity2 :=
  ((dedup_last_write_wins [exampleEntity1, exampleEntity2]).2.1 "openai".toList).trans (by decide)

/-! ## Graph writer lemmas -/

theorem nodeLoop_count : ∀ (ents : List PyEntity) (s : Store) (cnt : Nat),
    (nodeLoop s cnt ents).2 = cnt + ents.length := by
  intro ents
  induction ents with
  | nil => intro s cnt; simp [nodeLoop]
  | cons e rest ih =>
    intro s cnt
    unfold nodeLoop
    rw [ih]
    simp only [List.length_cons]
    omega

theorem execNodeMerge_mono (s : Store) (name n : List Char) (h : n ∈ s.nodes) :
    n ∈ (execNodeMerge s name).nodes := by
  unfold execNodeMerge
  split
  · exact h
  · simp [h]

theorem execNodeMerge_mem (s : Store) (name : List Char) :
    name ∈ (execNodeMerge s name).nodes := by
  unfold execNodeMerge
  split
  · assumption
  · simp

theorem nodeLoop_mono : ∀ (ents : List PyEntity) (s : Store) (cnt : Nat) (n : List Char),
    n ∈ s.nodes → n ∈ (nodeLoop s cnt ents).1.nodes := by
  intro ents
  induction ents with
  | nil => intro s cnt n h; exact h
  | cons e rest ih =>
    intro s cnt n h
    unfold nodeLoop
    exact ih _ _ n (execNodeMerge_mono s (nodeName e) n h)

theorem nodeLoop_mem : ∀ (ents : List PyEntity) (s : Store) (cnt : Nat) (e : PyEntity),
    e ∈ ents → nodeName e ∈ (nodeLoop s cnt ents).1.nodes := by
  intro ents
  induction ents with
  | nil => intro s cnt e h; simp at h
  | cons e0 rest ih =>
    intro s cnt e h
    obtain heq | hmem := List.mem_cons.mp h
    · subst heq
      unfold nodeLoop
      exact nodeLoop_mono rest _ _ _ (execNodeMerge_mem s (nodeName e))
    · unfold nodeLoop
      exact ih _ _ e hmem

/-- The Boolean guard of line 202: the relationship write executes iff both
trimmed names are non-empty. -/
def relNamesValid (r : PyRel) : Bool :=
  !(relSource r).isEmpty && !(relTarget r).isEmpty

theorem relLoop_count : ∀ (rels : List PyRel) (s : Store) (cnt : Nat),
    (relLoop s cnt rels).2 = cnt + (rels.filter relNamesValid).length := by
  intro rels
  induction rels with
  | nil => intro s cnt; simp [relLoop]
  | cons r rest ih =>
    intro s cnt
    unfold relLoop
    by_cases hv : (relSource r).isEmpty || (relTarget r).isEmpty
    · rw [if_pos hv, ih]
      have hfil : (r :: rest).filter relNamesValid = rest.filter relNamesValid := by
        rw [List.filter_cons_of_neg]
        unfold relNamesValid
        rcases Bool.or_eq_true _ _ |>.mp hv with h | h <;> simp [h]
      rw [hfil]
    · rw [if_neg hv, ih]
      have hfil : (r :: rest).filter relNamesValid = r :: rest.filter relNamesValid := by
        rw [List.filter_cons_of_pos]
        unfold relNamesValid
        simp only [Bool.or_eq_true, not_or, Bool.not_eq_true] at hv
        simp [hv.1, hv.2]
      rw [hfil]
      simp only [List.length_cons]
      omega

theorem execRelWrite_nodes (s : Store) (src tgt rt : List Char) :
    (execRelWrite s src tgt rt).nodes = s.nodes := by
  unfold execRelWrite
  split
  · split <;> · unfold upsertEdge; split <;> rfl
  · rfl

theorem relLoop_nodes : ∀ (rels : List PyRel) (s : Store) (cnt : Nat),
    (relLoop s cnt rels).1.nodes = s.nodes := by
  intro rels
  induction rels with
  | nil => intro s cnt; rfl
  | cons r rest ih =>
    intro s cnt
    unfold relLoop
    split
    · exact ih s cnt
    · rw [ih, execRelWrite_nodes]

/-! ## Graph writer claims -/

/-- C8: a relationship whose source or target name is empty after trimming is
skipped as a no-op: no store write happens for it, `relationships_created`
is not incremented, and the remaining writes are unaffected. -/
theorem rel_empty_name_skipped (s : Store) (cnt : Nat) (r : PyRel) (rest : List PyRel)
    (h : (relSource r).isEmpty = true ∨ (relTarget r).isEmpty = true) :
    relLoop s cnt (r :: rest) = relLoop s cnt rest := by
  have hb : ((relSource r).isEmpty || (relTarget r).isEmpty) = true := by
    rcases h with h | h <;> simp [h]
  conv_lhs => unfold relLoop
  rw [if_pos hb]

theorem rel_empty_name_skipped_witness :
    relLoop emptyStore 0 [exampleEmptyNameRel] = (emptyStore, 0) :=
  (rel_empty_name_skipped emptyStore 0 exampleEmptyNameRel []
    (Or.inl (by decide))).trans rfl

/-- C1, counterexample: an ingestion run whose model output contains one
relationship between names that are not entity nodes. The relationship
query `MATCH`es nothing — no edge is materialized (the final store has no
edges) — yet `relationships_created` is reported as 1, so the returned
counts do not reflect only writes that took effect. -/
theorem rel_count_counts_unmaterialized_write :
    (build_knowledge_graph exampleLoads exampleOutcomes [['x']] emptyStore).2.2 = 1 ∧
    (build_knowledge_graph exampleLoads exampleOutcomes [['x']] emptyStore).1.edges = [] := by
  decide

/-- C1, amended: `nodes_created` equals the number of entity node upserts, and
each such upsert materializes its node in the store; `relationships_created`
equals the number of relationship write queries executed without store
error — exactly the relationships whose trimmed source and target are
non-empty — including queries that materialize no edge because an endpoint
node is missing. -/
theorem write_phase_counts (s : Store) (ents : List PyEntity) (rels : List PyRel) :
    (graphWritePhase s ents rels).2.1 = ents.length ∧
    (∀ e, e ∈ ents → nodeName e ∈ (graphWritePhase s ents rels).1.nodes) ∧
    (graphWritePhase s ents rels).2.2 = (rels.filter relNamesValid).length := by
  refine ⟨?_, ?_, ?_⟩
  · show (nodeLoop s 0 ents).2 = ents.length
    rw [nodeLoop_count]
    omega
  · intro e he
    show nodeName e ∈ (relLoop (nodeLoop s 0 ents).1 0 rels).1.nodes
    rw [relLoop_nodes]
    exact nodeLoop_mem ents s 0 e he
  · show (relLoop (nodeLoop s 0 ents).1 0 rels).2 = (rels.filter relNamesValid).length
    rw [relLoop_count]
    omega

theorem write_phase_counts_witness :
    nodeName exampleEntity1 ∈
      (graphWritePhase emptyStore [exampleEntity1] [exampleDanglingRel]).1.nodes :=
  (write_phase_counts emptyStore [exampleEntity1] [exampleDanglingRel]).2.1
    exampleEntity1 (by decide)

/-! ## Concurrency controller aggregation lemmas and claims -/

theorem aggregate_go : ∀ (results : List PyJson) (ents : List PyEntity) (rels : List PyRel),
    results.foldl (fun acc p => (acc.1 ++ getEntities p, acc.2 ++ getRels p)) (ents, rels) =
      (ents ++ (results.map getEntities).flatten, rels ++ (results.map getRels).flatten) := by
  intro results
  induction results with
  | nil => intro ents rels; simp
  | cons p rest ih =>
    intro ents rels
    rw [List.foldl_cons, ih]
    simp

/-- C4: `asyncio.gather` resolves one result per chunk — none dropped — where
the result at index `i` is exactly chunk `i`'s own extraction outcome
(independent of every sibling's outcome), and the aggregated entity and
relationship lists are exactly the in-order concatenation of the per-chunk
lists. -/
theorem gather_no_silent_drops (loads : List Char → Option PyJson)
    (outcomes : Nat → ModelOutcome) (chunks : List (List Char)) :
    (gatherResults loads outcomes chunks).length = chunks.length ∧
    (∀ i, i < chunks.length →
      (gatherResults loads outcomes chunks)[i]? =
        some (extract_with_timeout loads (outcomes i))) ∧
    (aggregateResults (gatherResults loads outcomes chunks)).1 =
      ((gatherResults loads outcomes chunks).map getEntities).flatten ∧
    (aggregateResults (gatherResults loads outcomes chunks)).2 =
      ((gatherResults loads outcomes chunks).map getRels).flatten := by
  refine ⟨?_, ?_, ?_, ?_⟩
  · simp [gatherResults]
  · intro i hi
    simp [gatherResults, List.getElem?_map, List.getElem?_range, hi]
  · unfold aggregateResults
    rw [aggregate_go]
    rfl
  · unfold aggregateResults
    rw [aggregate_go]
    rfl

theorem gather_no_silent_drops_witness :
    (gatherResults failingLoads (fun _ => ModelOutcome.timeout) [['a']])[0]? =
      some emptyParsed :=
  ((gather_no_silent_drops failingLoads (fun _ => ModelOutcome.timeout) [['a']]).2.1
    0 (by decide)).trans (by decide)

/-! ## Extraction client claim -/

/-- C5: per-chunk extraction never raises: for every model outcome it returns
a dict-shaped result, obtained by parsing the fence-stripped reply text;
on timeout, on any other model error, on unparseable output, and on output
that parses to a non-object (on which the logging `.get` raises inside the
guarded block), the result is the empty structure. The last conjunct shows
a fenced reply being stripped to its JSON payload before parsing. -/
theorem extract_never_raises (loads : List Char → Option PyJson) (o : ModelOutcome) :
    (∃ e r, extract_with_timeout loads o = .obj e r) ∧
    (o = .timeout → extract_with_timeout loads o = emptyParsed) ∧
    (o = .failed → extract_with_timeout loads o = emptyParsed) ∧
    (∀ c, o = .ok c → loads (cleanLLMOutput c) = none →
      extract_with_timeout loads o = emptyParsed) ∧
    (∀ c, o = .ok c → loads (cleanLLMOutput c) = some .nonobj →
      extract_with_timeout loads o = emptyParsed) ∧
    cleanLLMOutput "```json\n\x7b \"entities\": [] \x7d\n```".toList =
      "\x7b \"entities\": [] \x7d".toList := by
  refine ⟨?_, ?_, ?_, ?_, ?_, by decide⟩
  · cases o with
    | timeout => exact ⟨some [], some [], rfl⟩
    | failed => exact ⟨some [], some [], rfl⟩
    | ok c =>
      cases hp : parse_llm_json loads c with
      | obj e r => exact ⟨e, r, by simp only [extract_with_timeout, hp]⟩
      | nonobj => exact ⟨some [], some [], by simp only [extract_with_timeout, hp, emptyParsed]⟩
  · intro h; subst h; rfl
  · intro h; subst h; rfl
  · intro c h hn
    subst h
    simp only [extract_with_timeout, parse_llm_json, hn, emptyParsed]
  · intro c h hn
    subst h
    simp only [extract_with_timeout, parse_llm_json, hn, emptyParsed]

theorem extract_never_raises_witness :
    extract_with_timeout failingLoads (ModelOutcome.ok "```json not json```".toList) =
      emptyParsed :=
  (extract_never_raises failingLoads (ModelOutcome.ok "```json not json```".toList)).2.2.2.1
    "```json not json```".toList rfl rfl

/-! ## Subgraph retriever lemmas and claim -/

theorem renderEntity_shape (g : Graph) (n : GNode) :
    ∃ t, renderEntity g n = 'E' :: t := by
  unfold renderEntity renderWithDescr renderBase
  split
  · split
    · exact ⟨_, rfl⟩
    · exact ⟨_, rfl⟩
  · split
    · exact ⟨_, rfl⟩
    · exact ⟨_, rfl⟩

theorem pyJoin_ne_sentinel (xs : List (List Char)) (x : List Char) (t : List Char)
    (hx : x = 'E' :: t) : pyJoin "\n\n".toList (x :: xs) ≠ noInfoSentinel := by
  intro hcon
  have hhead : (pyJoin "\n\n".toList (x :: xs)).head? = some 'E' := by
    subst hx
    cases xs <;> rfl
  rw [hcon] at hhead
  have : noInfoSentinel.head? = some 'N' := by decide
  rw [this] at hhead
  exact absurd hhead (by decide)

/-- C6: retrieval over an empty graph returns the fixed "no information found"
sentinel; over a non-empty graph whose case-insensitive substring search
yields zero matches it returns the rendered bounded sample of up to 20
arbitrary entities with their neighborhoods — never the sentinel. -/
theorem retrieve_sentinel_and_fallback (g : Graph) (q : List Char) :
    (g.nodes = [] → retrieve_subgraph g q = noInfoSentinel) ∧
    (g.nodes ≠ [] → (g.nodes.filter (matchesQuery q)).isEmpty = true →
      retrieve_subgraph g q =
        pyJoin "\n\n".toList ((g.nodes.take 20).map (renderEntity g)) ∧
      retrieve_subgraph g q ≠ noInfoSentinel) := by
  constructor
  · intro h
    unfold retrieve_subgraph retrieveResults
    rw [h]
    rfl
  · intro hne hfil
    have hfe : g.nodes.filter (matchesQuery q) = [] := List.isEmpty_iff.mp hfil
    have hres : retrieveResults g q = g.nodes.take 20 := by
      unfold retrieveResults
      rw [hfe]
      rfl
    obtain ⟨n0, rest, hn⟩ : ∃ n0 rest, g.nodes = n0 :: rest := by
      cases hcase : g.nodes with
      | nil => exact absurd hcase hne
      | cons a l => exact ⟨a, l, rfl⟩
    have htake : g.nodes.take 20 = n0 :: rest.take 19 := by rw [hn]; rfl
    constructor
    · unfold retrieve_subgraph
      rw [hres, htake, List.map_cons, if_neg (by simp)]
    · unfold retrieve_subgraph
      rw [hres, htake, List.map_cons, if_neg (by simp)]
      obtain ⟨t, ht⟩ := renderEntity_shape g n0
      exact pyJoin_ne_sentinel _ _ t ht

theorem retrieve_sentinel_and_fallback_witness :
    retrieve_subgraph exampleGraph "zzz".toList =
      pyJoin "\n\n".toList ((exampleGraph.nodes.take 20).map (renderEntity exampleGraph)) :=
  ((retrieve_sentinel_and_fallback exampleGraph "zzz".toList).2 (by decide) (by decide)).1

/-! ## Concurrency controller admission gate -/

theorem runningCount_replicate_pending (n : Nat) :
    runningCount (List.replicate n TaskState.pending) = 0 := by
  induction n with
  | zero => rfl
  | succ m ih =>
    unfold runningCount at *
    rw [List.replicate_succ, List.countP_cons]
    simp [ih]

theorem runningCount_set (ts : List TaskState) (i : Nat) (x y : TaskState)
    (h : ts[i]? = some y) :
    runningCount (ts.set i x) + (if y = TaskState.running then 1 else 0) =
      runningCount ts + (if x = TaskState.running then 1 else 0) := by
  induction ts generalizing i with
  | nil => simp at h
  | cons a l ih =>
    cases i with
    | zero =>
      simp only [List.getElem?_cons_zero, Option.some.injEq] at h
      subst h
      show runningCount (x :: l) + _ = runningCount (a :: l) + _
      unfold runningCount
      rw [List.countP_cons, List.countP_cons]
      by_cases hx : x = TaskState.running <;> by_cases ha : a = TaskState.running <;>
        simp [hx, ha]
    | succ j =>
      have h' : l[j]? = some y := by simpa using h
      show runningCount (a :: l.set j x) + _ = runningCount (a :: l) + _
      unfold runningCount
      rw [List.countP_cons, List.countP_cons]
      have hrec := ih j h'
      unfold runningCount at hrec
      omega

/-- C9: in every state reachable by the controller run over `n` chunk tasks
with the admission bound of 5, at most 5 extraction calls are concurrently
outstanding: the gate is acquired before a call starts and released when it
completes, whatever the outcome, so the count of running tasks never
exceeds 5. -/
theorem semaphore_bounds_concurrency (n : Nat) (ts : List TaskState)
    (h : SemReachable 5 n ts) : runningCount ts ≤ 5 := by
  unfold SemReachable at h
  induction h with
  | refl => rw [runningCount_replicate_pending]; omega
  | tail hab hstep ih =>
    rename_i b c
    cases hstep with
    | acquire i hp hk =>
      have hc := runningCount_set b i .running .pending hp
      simp at hc
      omega
    | release i hr =>
      have hc := runningCount_set b i .finished .running hr
      simp at hc
      omega

theorem semaphore_bounds_concurrency_witness :
    runningCount (List.replicate 3 TaskState.pending) ≤ 5 :=
  semaphore_bounds_concurrency 3 (List.replicate 3 TaskState.pending)
    Relation.ReflTransGen.refl

end Synapse
